import Mathlib

/-!
Shallow embedding of `utils_cv/tracking/plot.py` (tracking-result video
annotation): the color assigner `_compute_color_for_all_labels`, the frame
annotator `_draw_boxes`, and the video pipeline `_write_video` /
`plot_results`, together with proofs settling the specification claims.

Python dictionaries built by `dict(zip(keys, values))` are embedded as
association lists constructed by repeated insertion, where inserting an
existing key overwrites its value in place (CPython semantics: first
insertion fixes the position, later insertions overwrite the value).
-/

/-- Python `dict` insertion: if the key is present, overwrite its value in
place (keeping its position); otherwise append the new pair at the end. -/
def dictInsert {κ α : Type} [BEq κ] (d : List (κ × α)) (k : κ) (v : α) :
    List (κ × α) :=
  if d.any (fun p => p.1 == k) then
    d.map (fun p => if p.1 == k then (k, v) else p)
  else d ++ [(k, v)]

/-- Python `dict(zip(ks, vs))`: fold the zipped pairs into an empty dict. -/
def dictOfZip {κ α : Type} [BEq κ] (ks : List κ) (vs : List α) :
    List (κ × α) :=
  (ks.zip vs).foldl (fun d p => dictInsert d p.1 p.2) []

/-- Python `d[k]` lookup, as an `Option` (a `None` models a `KeyError`). -/
def dictGet {κ α : Type} [BEq κ] (d : List (κ × α)) (k : κ) : Option α :=
  (d.find? (fun p => p.1 == k)).map Prod.snd

/-- The fixed base palette `(2**11 - 1, 2**15 - 1, 2**20 - 1)` of
`_compute_color_for_all_labels` (plot.py line 125). -/
def palette : Nat × Nat × Nat := (2 ^ 11 - 1, 2 ^ 15 - 1, 2 ^ 20 - 1)

/-- The per-position multiplier `(i + 1) ** 5 - i + 1` of the color loop
(plot.py line 132). -/
def colorMultiplier (i : Nat) : Nat := (i + 1) ^ 5 - i + 1

/-- The color computed for enumeration position `i`:
`[int((p * ((i + 1) ** 5 - i + 1)) % 255) for p in palette]` (plot.py
line 132). -/
def labelColor (i : Nat) : Nat × Nat × Nat :=
  ((palette.1 * colorMultiplier i) % 255,
   (palette.2.1 * colorMultiplier i) % 255,
   (palette.2.2 * colorMultiplier i) % 255)

/-- Embedding of `_compute_color_for_all_labels` (plot.py lines 116-137):
`id_list2 = list(range(len(id_list)))`, a color per position, then
`dict(zip(id_list, color_list))`. -/
def _compute_color_for_all_labels (id_list : List Int) :
    List (Int × (Nat × Nat × Nat)) :=
  let color_list := (List.range id_list.length).map labelColor
  dictOfZip id_list color_list

example : labelColor 0 = (14, 254, 30) := by decide
example : labelColor 1 = (224, 239, 225) := by decide
example : labelColor 3 = (14, 254, 30) := by decide
example : dictGet (_compute_color_for_all_labels [5, 9]) 5 =
    some (14, 254, 30) := by decide

/-- Modelled from the spec: `TrackingBbox` (imported in plot.py from
`.bbox`, whose source is not in the repository snapshot) carries the frame
index, the stable track identifier, and float box coordinates
`left, top, right, bottom`; floats are modelled as rationals. -/
structure TrackingBbox where
  frame_id : Int
  track_id : Int
  left : ℚ
  top : ℚ
  right : ℚ
  bottom : ℚ
deriving DecidableEq

/-- Python 3 `round` on an exact value: nearest integer, ties to even. -/
def pyRound (q : ℚ) : Int :=
  let f := ⌊q⌋
  let r := q - (f : ℚ)
  if r < 1 / 2 then f
  else if 1 / 2 < r then f + 1
  else if f % 2 == 0 then f else f + 1

/-- One drawing primitive applied to a frame: `cv2.rectangle` with a color
and stroke width, or `cv2.putText` with a label, position, font scale,
color and thickness. -/
inductive DrawOp where
  | rect (left top right bottom : Int) (color : Nat × Nat × Nat)
      (thickness : Nat)
  | text (label : String) (x y : Int) (fontScale : Nat)
      (color : Nat × Nat × Nat) (thickness : Nat)
deriving DecidableEq

/-- A raw image frame: opaque pixel content `data` plus the trace of
drawing operations applied in place. -/
structure Image where
  data : Nat
  ops : List DrawOp
deriving DecidableEq

example : pyRound (5 / 2) = 2 := by norm_num [pyRound]
example : pyRound (7 / 2) = 4 := by norm_num [pyRound]
example : pyRound (-3 / 2) = -2 := by norm_num [pyRound]
example : pyRound (11 / 10) = 1 := by norm_num [pyRound]

/-- The `for tid, bb in tracks.items()` loop of `_draw_boxes` (plot.py
lines 90-110): each iteration rounds the coordinates, looks the id up in
the color map (`none` models a `KeyError`), and appends the rectangle and
`id_<tid>` label draws. `tsize` abstracts `cv2.getTextSize(...)[0][1]`
(the text height). -/
def drawLoop (tsize : String → Int)
    (color_map : List (Int × (Nat × Nat × Nat))) :
    List (Int × TrackingBbox) → Image → Option Image
  | [], im => some im
  | (tid, bb) :: rest, im =>
    match dictGet color_map tid with
    | none => none
    | some color =>
      let left := pyRound bb.left
      let top := pyRound bb.top
      let right := pyRound bb.right
      let bottom := pyRound bb.bottom
      let label := toString tid
      let t_height := tsize label
      drawLoop tsize color_map rest
        { im with ops := im.ops ++
            [DrawOp.rect left top right bottom color 3,
             DrawOp.text ("id_" ++ label) left (top + t_height - 30) 1
               color 3] }

/-- Embedding of `_draw_boxes` (plot.py lines 74-113): deduplicate the
boxes by track id via `dict(zip(cur_ids, cur_tracks))`, then draw each
retained box. -/
def _draw_boxes (tsize : String → Int) (im : Image)
    (cur_tracks : List TrackingBbox)
    (color_map : List (Int × (Nat × Nat × Nat))) : Option Image :=
  let cur_ids := cur_tracks.map TrackingBbox.track_id
  let tracks := dictOfZip cur_ids cur_tracks
  drawLoop tsize color_map tracks im

/-- The input video source as `cv2.VideoCapture` exposes it: the finite
ordered frame sequence plus integer width, height and frame rate. -/
structure VideoCapture where
  frames : List Image
  width : Nat
  height : Nat
  fps : Nat

/-- The output sink as `cv2.VideoWriter` exposes it: the dimensions and
frame rate it was created with, plus the frames written so far. -/
structure VideoWriter where
  width : Nat
  height : Nat
  fps : Nat
  frames : List Image
deriving DecidableEq

/-- The exceptions `_write_video` can raise: a `KeyError` from
`results[frame_idx]` or a `KeyError` from `color_map[tid]`. -/
inductive PipeError where
  | keyErrorFrame (idx : Nat)
  | keyErrorColor (idx : Nat)
deriving DecidableEq

/-- Modelled from the spec: `cv2.VideoCapture.open` on an unreadable path
does not raise; the failed capture yields zero frames and its metadata
reads return 0 (the source "cannot be opened or yields zero usable
frames"). An unreadable input is the `none` case. -/
def captureOf : Option VideoCapture → VideoCapture
  | some v => v
  | none => ⟨[], 0, 0, 0⟩

/-- The `while video.grab()` loop of `_write_video` (plot.py lines 64-71):
for each source frame look up `results[frame_idx]` (a miss raises
`KeyError`), draw boxes when the list is non-empty, write the frame, and
advance the counter. Returns the frames written and the outcome. -/
def writeLoop (tsize : String → Int)
    (results : List (Nat × List TrackingBbox))
    (color_map : List (Int × (Nat × Nat × Nat))) :
    List Image → Nat → List Image → List Image × Except PipeError Unit
  | [], _, written => (written, Except.ok ())
  | f :: rest, frame_idx, written =>
    match dictGet results frame_idx with
    | none => (written, Except.error (PipeError.keyErrorFrame frame_idx))
    | some cur_tracks =>
      if 0 < cur_tracks.length then
        match _draw_boxes tsize f cur_tracks color_map with
        | none =>
          (written, Except.error (PipeError.keyErrorColor frame_idx))
        | some f2 =>
          writeLoop tsize results color_map rest (frame_idx + 1)
            (written ++ [f2])
      else
        writeLoop tsize results color_map rest (frame_idx + 1)
          (written ++ [f])

/-- Embedding of `_write_video` (plot.py lines 36-71): open the input
(`captureOf`), read width/height/frame rate, create the writer with them,
collect `unique_ids` over all frames, build the color map, and run the
frame loop. The writer holds every frame written before any exception. -/
def _write_video (tsize : String → Int)
    (results : List (Nat × List TrackingBbox))
    (input_video : Option VideoCapture) :
    VideoWriter × Except PipeError Unit :=
  let video := captureOf input_video
  let image_width := video.width
  let image_height := video.height
  let frame_rate := video.fps
  let unique_ids :=
    ((results.map Prod.snd).flatten.map TrackingBbox.track_id).dedup
  let color_map := _compute_color_for_all_labels unique_ids
  let out := writeLoop tsize results color_map video.frames 0 []
  (⟨image_width, image_height, frame_rate, out.1⟩, out.2)

/-- Insertion step for sorting the results items by frame index. -/
def insertSorted (p : Nat × List TrackingBbox) :
    List (Nat × List TrackingBbox) → List (Nat × List TrackingBbox)
  | [] => [p]
  | q :: rest =>
    if p.1 ≤ q.1 then p :: q :: rest else q :: insertSorted p rest

/-- `OrderedDict(sorted(results.items()))` (plot.py line 27): the results
items in ascending frame-index order. -/
def sortResults (l : List (Nat × List TrackingBbox)) :
    List (Nat × List TrackingBbox) :=
  l.foldr insertSorted []

/-- Embedding of `plot_results` (plot.py lines 13-33): sort the results,
run `_write_video`, and return the output path. -/
def plot_results (tsize : String → Int)
    (results : List (Nat × List TrackingBbox))
    (input_video : Option VideoCapture) (output_video : String) :
    (VideoWriter × Except PipeError Unit) × String :=
  (_write_video tsize (sortResults results) input_video, output_video)

lemma foldl_dictInsert_append {κ α : Type} [BEq κ] [LawfulBEq κ] :
    ∀ (ks : List κ) (vs : List α) (d : List (κ × α)), ks.Nodup →
      (∀ p ∈ d, p.1 ∉ ks) →
      (ks.zip vs).foldl (fun d p => dictInsert d p.1 p.2) d =
        d ++ ks.zip vs := by
  intro ks
  induction ks with
  | nil => intro vs d _ _; simp
  | cons k ks ih =>
    intro vs d hnd hdisj
    cases vs with
    | nil => simp
    | cons v vs =>
      simp only [List.zip_cons_cons, List.foldl_cons]
      have hnotin : ¬ d.any (fun p => p.1 == k) = true := by
        simp only [List.any_eq_true, beq_iff_eq, not_exists, not_and]
        intro p hp
        exact fun hk => hdisj p hp (hk ▸ List.mem_cons_self k ks)
      rw [show dictInsert d k v = d ++ [(k, v)] from by
        rw [dictInsert, if_neg hnotin]]
      rw [ih vs (d ++ [(k, v)]) (List.nodup_cons.mp hnd).2 ?_]
      · simp
      · intro p hp
        rcases List.mem_append.mp hp with hp | hp
        · exact fun hk => hdisj p hp (List.mem_cons_of_mem _ hk)
        · simp only [List.mem_singleton] at hp
          subst hp
          exact (List.nodup_cons.mp hnd).1

lemma dictOfZip_eq_zip {κ α : Type} [BEq κ] [LawfulBEq κ]
    (ks : List κ) (vs : List α) (hnd : ks.Nodup) :
    dictOfZip ks vs = ks.zip vs := by
  rw [dictOfZip, foldl_dictInsert_append ks vs [] hnd (by simp)]
  simp

lemma mem_dictInsert {κ α : Type} [BEq κ] [LawfulBEq κ]
    {d : List (κ × α)} {k : κ} {v : α} {p : κ × α}
    (h : p ∈ dictInsert d k v) : p ∈ d ∨ p = (k, v) := by
  rw [dictInsert] at h
  split at h
  · rcases List.mem_map.mp h with ⟨q, hq, hfq⟩
    by_cases hk : (q.1 == k) = true
    · right; rw [if_pos hk] at hfq; exact hfq.symm
    · left; rw [if_neg hk] at hfq; exact hfq ▸ hq
  · rcases List.mem_append.mp h with hp | hp
    · exact Or.inl hp
    · right; simpa using hp

lemma mem_foldl_dictInsert {κ α : Type} [BEq κ] [LawfulBEq κ] :
    ∀ (l : List (κ × α)) (d : List (κ × α)) (p : κ × α),
      p ∈ l.foldl (fun d q => dictInsert d q.1 q.2) d → p ∈ d ∨ p ∈ l := by
  intro l
  induction l with
  | nil => intro d p h; exact Or.inl h
  | cons q l ih =>
    intro d p h
    simp only [List.foldl_cons] at h
    rcases ih (dictInsert d q.1 q.2) p h with hp | hp
    · rcases mem_dictInsert hp with hp | hp
      · exact Or.inl hp
      · exact Or.inr (hp ▸ List.mem_cons_self q l)
    · exact Or.inr (List.mem_cons_of_mem _ hp)

lemma dictInsert_overwrite {κ α : Type} [BEq κ] [LawfulBEq κ]
    (d : List (κ × α)) (k : κ) (v1 v2 : α) :
    dictInsert (dictInsert d k v1) k v2 = dictInsert d k v2 := by
  by_cases h : d.any (fun p => p.1 == k) = true
  · have h1 : dictInsert d k v1 =
        d.map (fun p => if p.1 == k then (k, v1) else p) := by
      rw [dictInsert, if_pos h]
    have hany : (d.map fun p => if p.1 == k then (k, v1) else p).any
        (fun p => p.1 == k) = true := by
      rcases List.any_eq_true.mp h with ⟨p, hp, hpk⟩
      refine List.any_eq_true.mpr ⟨(k, v1), List.mem_map.mpr
        ⟨p, hp, by rw [if_pos hpk]⟩, by simp⟩
    rw [h1, dictInsert, if_pos hany, dictInsert, if_pos h, List.map_map]
    refine List.map_eq_map_iff.mpr ?_
    intro p _
    by_cases hpk : (p.1 == k) = true
    · simp [hpk]
    · simp [hpk]
  · have h1 : dictInsert d k v1 = d ++ [(k, v1)] := by
      rw [dictInsert, if_neg h]
    have hall : ∀ p ∈ d, ¬ (p.1 == k) = true := by
      intro p hp hpk
      exact h (List.any_eq_true.mpr ⟨p, hp, hpk⟩)
    have hany : (d ++ [(k, v1)]).any (fun p => p.1 == k) = true := by
      refine List.any_eq_true.mpr ⟨(k, v1), ?_, by simp⟩
      simp
    rw [h1, dictInsert, if_pos hany, dictInsert, if_neg h, List.map_append]
    congr 1
    · refine (List.map_eq_map_iff.mpr ?_).trans (List.map_id d)
      intro p hp
      rw [if_neg (hall p hp)]
      rfl
    · simp

lemma dictGet_zip_isSome {κ α : Type} [BEq κ] [LawfulBEq κ] :
    ∀ (ks : List κ) (vs : List α) (k : κ), k ∈ ks →
      ks.length ≤ vs.length → (dictGet (ks.zip vs) k).isSome = true := by
  intro ks
  induction ks with
  | nil => intro vs k hk; exact absurd hk (List.not_mem_nil k)
  | cons k' ks ih =>
    intro vs k hk hlen
    cases vs with
    | nil => simp at hlen
    | cons v vs =>
      by_cases hkk : (k' == k) = true
      · simp [dictGet, List.zip_cons_cons, hkk]
      · rcases List.mem_cons.mp hk with rfl | hk
        · exact absurd (beq_self_eq_true k) hkk
        · have := ih vs k hk (by simpa using hlen)
          rw [dictGet] at this
          simpa [dictGet, List.zip_cons_cons, hkk] using this

lemma zip_map_track_id : ∀ (l : List TrackingBbox),
    (l.map TrackingBbox.track_id).zip l = l.map (fun b => (b.track_id, b))
  | [] => rfl
  | b :: l => by
    rw [List.map_cons, List.zip_cons_cons, zip_map_track_id l,
      List.map_cons]

lemma drawLoop_isSome (tsize : String → Int)
    (color_map : List (Int × (Nat × Nat × Nat))) :
    ∀ (l : List (Int × TrackingBbox)) (im : Image),
      (∀ p ∈ l, (dictGet color_map p.1).isSome = true) →
      ∃ im2, drawLoop tsize color_map l im = some im2 ∧
        im2.data = im.data := by
  intro l
  induction l with
  | nil => intro im _; exact ⟨im, rfl, rfl⟩
  | cons q l ih =>
    intro im h
    obtain ⟨tid, bb⟩ := q
    rcases Option.isSome_iff_exists.mp
      (h (tid, bb) (List.mem_cons_self _ _)) with ⟨color, hc⟩
    simp only [drawLoop, hc]
    exact ih _ (fun p hp => h p (List.mem_cons_of_mem _ hp))

lemma draw_boxes_isSome (tsize : String → Int) (im : Image)
    (cur_tracks : List TrackingBbox)
    (color_map : List (Int × (Nat × Nat × Nat)))
    (h : ∀ bb ∈ cur_tracks,
      (dictGet color_map bb.track_id).isSome = true) :
    ∃ im2, _draw_boxes tsize im cur_tracks color_map = some im2 ∧
      im2.data = im.data := by
  have key : ∀ p ∈ dictOfZip (cur_tracks.map TrackingBbox.track_id)
      cur_tracks, (dictGet color_map p.1).isSome = true := by
    intro p hp
    rw [dictOfZip] at hp
    rcases mem_foldl_dictInsert _ _ p hp with hp' | hp'
    · exact absurd hp' (List.not_mem_nil p)
    · rw [zip_map_track_id] at hp'
      rcases List.mem_map.mp hp' with ⟨b, hb, rfl⟩
      exact h b hb
  exact drawLoop_isSome tsize color_map _ im key

lemma writeLoop_ok (tsize : String → Int)
    (results : List (Nat × List TrackingBbox))
    (color_map : List (Int × (Nat × Nat × Nat)))
    (hc : ∀ j ts, dictGet results j = some ts → ∀ bb ∈ ts,
      (dictGet color_map bb.track_id).isSome = true) :
    ∀ (frames : List Image) (idx : Nat) (written : List Image),
      (∀ j, j < frames.length →
        (dictGet results (idx + j)).isSome = true) →
      ∃ out, writeLoop tsize results color_map frames idx written =
          (written ++ out, Except.ok ()) ∧
        out.length = frames.length ∧
        (∀ i (ho : i < out.length) (hi : i < frames.length),
          (out.get ⟨i, ho⟩).data = (frames.get ⟨i, hi⟩).data) ∧
        (∀ i (ho : i < out.length) (hi : i < frames.length),
          dictGet results (idx + i) = some [] →
            out.get ⟨i, ho⟩ = frames.get ⟨i, hi⟩) := by
  intro frames
  induction frames with
  | nil =>
    intro idx written _
    exact ⟨[], by simp [writeLoop], rfl, by simp, by simp⟩
  | cons f rest ih =>
    intro idx written hk
    have h0 : (dictGet results (idx + 0)).isSome = true := hk 0 (by simp)
    rw [Nat.add_zero] at h0
    rcases Option.isSome_iff_exists.mp h0 with ⟨ts, hts⟩
    have hk' : ∀ j, j < rest.length →
        (dictGet results (idx + 1 + j)).isSome = true := by
      intro j hj
      have := hk (j + 1) (by simpa using Nat.succ_lt_succ hj)
      rwa [show idx + (j + 1) = idx + 1 + j by omega] at this
    by_cases hlen : 0 < ts.length
    · rcases draw_boxes_isSome tsize f ts color_map (hc idx ts hts) with
        ⟨f2, hf2, hdata⟩
      rcases ih (idx + 1) (written ++ [f2]) hk' with
        ⟨out, hout, holen, hodata, hopass⟩
      refine ⟨f2 :: out, ?_, by simpa using holen, ?_, ?_⟩
      · simp only [writeLoop, hts]
        rw [if_pos hlen]
        simp only [hf2]
        rw [hout]
        simp [List.append_assoc]
      · intro i ho hi
        cases i with
        | zero => simpa using hdata
        | succ j =>
          simpa using hodata j (by simpa using ho) (by simpa using hi)
      · intro i ho hi hempty
        cases i with
        | zero =>
          rw [Nat.add_zero] at hempty
          rw [hempty] at hts
          cases hts
          simp at hlen
        | succ j =>
          have := hopass j (by simpa using ho) (by simpa using hi)
            (by rwa [show idx + 1 + j = idx + (j + 1) by omega])
          simpa using this
    · have hts0 : ts = [] :=
        List.length_eq_zero.mp (Nat.eq_zero_of_not_pos hlen)
      rcases ih (idx + 1) (written ++ [f]) hk' with
        ⟨out, hout, holen, hodata, hopass⟩
      refine ⟨f :: out, ?_, by simpa using holen, ?_, ?_⟩
      · simp only [writeLoop, hts]
        rw [if_neg hlen]
        rw [hout]
        simp [List.append_assoc]
      · intro i ho hi
        cases i with
        | zero => rfl
        | succ j =>
          simpa using hodata j (by simpa using ho) (by simpa using hi)
      · intro i ho hi hempty
        cases i with
        | zero => rfl
        | succ j =>
          have := hopass j (by simpa using ho) (by simpa using hi)
            (by rwa [show idx + 1 + j = idx + (j + 1) by omega])
          simpa using this

lemma writeLoop_err (tsize : String → Int)
    (results : List (Nat × List TrackingBbox))
    (color_map : List (Int × (Nat × Nat × Nat)))
    (hc : ∀ j ts, dictGet results j = some ts → ∀ bb ∈ ts,
      (dictGet color_map bb.track_id).isSome = true) :
    ∀ (m : Nat) (frames : List Image) (idx : Nat) (written : List Image),
      m < frames.length →
      (∀ j, j < m → (dictGet results (idx + j)).isSome = true) →
      dictGet results (idx + m) = none →
      (writeLoop tsize results color_map frames idx written).2 =
        Except.error (PipeError.keyErrorFrame (idx + m)) := by
  intro m
  induction m with
  | zero =>
    intro frames idx written hlen _ hmiss
    cases frames with
    | nil => simp at hlen
    | cons f rest =>
      rw [Nat.add_zero] at hmiss
      rw [Nat.add_zero]
      simp only [writeLoop, hmiss]
  | succ m ih =>
    intro frames idx written hlen hkj hmiss
    cases frames with
    | nil => simp at hlen
    | cons f rest =>
      have h0 := hkj 0 (Nat.succ_pos m)
      rw [Nat.add_zero] at h0
      rcases Option.isSome_iff_exists.mp h0 with ⟨ts, hts⟩
      have hkj' : ∀ j, j < m →
          (dictGet results (idx + 1 + j)).isSome = true := by
        intro j hj
        have := hkj (j + 1) (Nat.succ_lt_succ hj)
        rwa [show idx + (j + 1) = idx + 1 + j by omega] at this
      have hmiss' : dictGet results (idx + 1 + m) = none := by
        rwa [show idx + 1 + m = idx + (m + 1) by omega]
      by_cases hl : 0 < ts.length
      · rcases draw_boxes_isSome tsize f ts color_map (hc idx ts hts) with
          ⟨f2, hf2, _⟩
        have hrec := ih rest (idx + 1) (written ++ [f2])
          (by simpa using hlen) hkj' hmiss'
        simp only [writeLoop, hts]
        rw [if_pos hl]
        simp only [hf2]
        rwa [show idx + 1 + m = idx + (m + 1) by omega] at hrec
      · have hrec := ih rest (idx + 1) (written ++ [f])
          (by simpa using hlen) hkj' hmiss'
        simp only [writeLoop, hts]
        rw [if_neg hl]
        rwa [show idx + 1 + m = idx + (m + 1) by omega] at hrec

lemma dictGet_isSome_mem {κ α : Type} [BEq κ] [LawfulBEq κ]
    {d : List (κ × α)} {k : κ} (h : (dictGet d k).isSome = true) :
    k ∈ d.map Prod.fst := by
  rcases Option.isSome_iff_exists.mp h with ⟨v, hv⟩
  rcases Option.map_eq_some'.mp hv with ⟨p, hp, _⟩
  have hmem := List.mem_of_find?_eq_some hp
  have hpk := List.find?_some hp
  simp only [beq_iff_eq] at hpk
  exact hpk ▸ List.mem_map_of_mem Prod.fst hmem

lemma dictGet_cons_self {κ α : Type} [BEq κ] [LawfulBEq κ] (k : κ) (v : α)
    (d : List (κ × α)) : dictGet ((k, v) :: d) k = some v := by
  rw [dictGet, List.find?_cons_of_pos _ (by simp)]
  rfl

lemma dictGet_cons_ne {κ α : Type} [BEq κ] [LawfulBEq κ] {k k' : κ}
    (v : α) (d : List (κ × α)) (h : k' ≠ k) :
    dictGet ((k', v) :: d) k = dictGet d k := by
  rw [dictGet, List.find?_cons_of_neg _ (by simp [h]), dictGet]

lemma compute_color_zip (ids : List Int) (h : ids.Nodup) :
    _compute_color_for_all_labels ids =
      ids.zip ((List.range ids.length).map labelColor) := by
  simp only [_compute_color_for_all_labels]
  exact dictOfZip_eq_zip _ _ h

lemma unique_ids_covers (results : List (Nat × List TrackingBbox)) :
    ∀ j ts, dictGet results j = some ts → ∀ bb ∈ ts,
      (dictGet (_compute_color_for_all_labels
        (((results.map Prod.snd).flatten.map TrackingBbox.track_id).dedup))
        bb.track_id).isSome = true := by
  intro j ts hts bb hbb
  rcases Option.map_eq_some'.mp hts with ⟨p, hp, hpts⟩
  have hmem : bb.track_id ∈
      ((results.map Prod.snd).flatten.map TrackingBbox.track_id).dedup := by
    apply List.mem_dedup.mpr
    refine List.mem_map_of_mem _ ?_
    refine List.mem_flatten.mpr ⟨ts, ?_, hbb⟩
    exact hpts ▸ List.mem_map_of_mem Prod.snd (List.mem_of_find?_eq_some hp)
  rw [compute_color_zip _ (List.nodup_dedup _)]
  exact dictGet_zip_isSome _ _ _ hmem (by simp)

lemma write_video_ok (tsize : String → Int)
    (results : List (Nat × List TrackingBbox)) (video : VideoCapture)
    (hk : ∀ j, j < video.frames.length →
      (dictGet results j).isSome = true) :
    ∃ out,
      _write_video tsize results (some video) =
        (⟨video.width, video.height, video.fps, out⟩, Except.ok ()) ∧
      out.length = video.frames.length ∧
      (∀ i (ho : i < out.length) (hi : i < video.frames.length),
        (out.get ⟨i, ho⟩).data = (video.frames.get ⟨i, hi⟩).data) ∧
      (∀ i (ho : i < out.length) (hi : i < video.frames.length),
        dictGet results i = some [] →
          out.get ⟨i, ho⟩ = video.frames.get ⟨i, hi⟩) := by
  have hc := unique_ids_covers results
  have hk0 : ∀ j, j < video.frames.length →
      (dictGet results (0 + j)).isSome = true := by
    intro j hj
    rw [Nat.zero_add]
    exact hk j hj
  rcases writeLoop_ok tsize results _ hc video.frames 0 [] hk0 with
    ⟨out, hout, holen, hodata, hopass⟩
  refine ⟨out, ?_, holen, hodata, ?_⟩
  · simp only [_write_video, captureOf]
    rw [hout]
    simp
  · intro i ho hi hempty
    exact hopass i ho hi (by rwa [Nat.zero_add])

/-- Claim C3 counterexample: with enumeration order `[5, 9]`, identifier
`5` does NOT receive `(14, 44, 0)`; the spec's worked example evaluates
the (correct) formula incorrectly. -/
theorem color_example_cex :
    dictGet (_compute_color_for_all_labels [5, 9]) 5 ≠ some (14, 44, 0) := by
  decide

/-- Claim C3 (amended): with enumeration order `[5, 9]`, index 0
(identifier `5`) receives `(2047*2 mod 255, 32767*2 mod 255,
1048575*2 mod 255) = (14, 254, 30)`. -/
theorem color_example_amended :
    dictGet (_compute_color_for_all_labels [5, 9]) 5 =
      some (2047 * 2 % 255, 32767 * 2 % 255, 1048575 * 2 % 255) ∧
    ((2047 * 2 % 255 : Nat), (32767 * 2 % 255 : Nat),
      (1048575 * 2 % 255 : Nat)) = (14, 254, 30) := by
  constructor
  · decide
  · decide

/-- Claim C4 counterexample: the identifier set `{1, 2, 3, 4}` presented
in order `[1, 2, 3, 4]` versus the genuine reordering `[4, 2, 3, 1]`
assigns every identifier the same color, because positions 0 and 3 share
a color; so a reordering does not always change some identifier's
color. -/
theorem reorder_same_colors_cex :
    ([4, 2, 3, 1] : List Int) ≠ [1, 2, 3, 4] ∧
    ∀ t ∈ ([1, 2, 3, 4] : List Int),
      dictGet (_compute_color_for_all_labels [1, 2, 3, 4]) t =
        dictGet (_compute_color_for_all_labels [4, 2, 3, 1]) t := by
  decide

/-- Claim C4 (amended): `_compute_color_for_all_labels` is a pure
function of enumeration order (identical input order gives identical
colors), and for every identifier list with at least 2 distinct members
there is a reordering that changes the color of some identifier: swapping
the first two members changes the first member's color. (The original
universal claim over all reorderings fails for lists of length ≥ 4.) -/
theorem color_assigner_order_dependent (a b : Int) (rest : List Int)
    (hab : a ≠ b) (hnd : (a :: b :: rest).Nodup) :
    _compute_color_for_all_labels (a :: b :: rest) =
      _compute_color_for_all_labels (a :: b :: rest) ∧
    dictGet (_compute_color_for_all_labels (a :: b :: rest)) a ≠
      dictGet (_compute_color_for_all_labels (b :: a :: rest)) a := by
  refine ⟨rfl, ?_⟩
  have hnd' : (b :: a :: rest).Nodup :=
    (List.Perm.swap b a rest).nodup hnd
  rw [compute_color_zip _ hnd, compute_color_zip _ hnd']
  simp only [List.length_cons]
  rw [List.range_succ_eq_map, List.range_succ_eq_map]
  simp only [List.map_cons, List.map_map, List.zip_cons_cons]
  rw [dictGet_cons_self, dictGet_cons_ne _ _ (Ne.symm hab),
    dictGet_cons_self]
  simp only [ne_eq, Option.some.injEq]
  decide

/-- Claim C4 witness: identifiers `[1, 2]` versus `[2, 1]` assign
identifier `1` different colors. -/
theorem color_assigner_order_dependent_witness :
    dictGet (_compute_color_for_all_labels [1, 2]) 1 ≠
      dictGet (_compute_color_for_all_labels [2, 1]) 1 :=
  (color_assigner_order_dependent 1 2 [] (by decide) (by decide)).2

/-- Claim C7: for a set of distinct track identifiers the color map has
exactly the identifiers as keys, in enumeration order (one entry per
identifier, none outside the set); the empty set yields the empty map. -/
theorem color_map_domain (ids : List Int) (hnd : ids.Nodup) :
    (_compute_color_for_all_labels ids).map Prod.fst = ids ∧
    _compute_color_for_all_labels [] = [] ∧
    ∀ t, (dictGet (_compute_color_for_all_labels ids) t).isSome = true ↔
      t ∈ ids := by
  have hzip := compute_color_zip ids hnd
  refine ⟨?_, rfl, ?_⟩
  · rw [hzip]
    exact List.map_fst_zip _ _ (by simp)
  · intro t
    constructor
    · intro h
      have := dictGet_isSome_mem h
      rw [hzip, List.map_fst_zip _ _ (by simp)] at this
      exact this
    · intro h
      rw [hzip]
      exact dictGet_zip_isSome _ _ _ h (by simp)

/-- Claim C7 witness: the color map for `[3, 8]` has keys exactly
`[3, 8]`. -/
theorem color_map_domain_witness :
    (_compute_color_for_all_labels [3, 8]).map Prod.fst = [3, 8] :=
  (color_map_domain [3, 8] (by decide)).1

/-- Claim C9: the multiplier `(i+1)^5 - i + 1` is congruent to 2 mod 255
at both `i = 0` and `i = 3`, so in any list of at least 4 distinct
identifiers the identifiers at enumeration positions 0 and 3 receive the
identical RGB triple: colors at distinct positions are not always
distinct. -/
theorem positions_zero_three_same_color (a b c d : Int) (rest : List Int)
    (hnd : (a :: b :: c :: d :: rest).Nodup) :
    colorMultiplier 0 % 255 = 2 ∧ colorMultiplier 3 % 255 = 2 ∧
    labelColor 0 = labelColor 3 ∧
    dictGet (_compute_color_for_all_labels (a :: b :: c :: d :: rest)) a =
      dictGet (_compute_color_for_all_labels (a :: b :: c :: d :: rest))
        d := by
  have hnd1 := List.nodup_cons.mp hnd
  have hnd2 := List.nodup_cons.mp hnd1.2
  have hnd3 := List.nodup_cons.mp hnd2.2
  have had : a ≠ d := fun h => hnd1.1 (by rw [h]; simp)
  have hbd : b ≠ d := fun h => hnd2.1 (by rw [h]; simp)
  have hcd : c ≠ d := fun h => hnd3.1 (by rw [h]; simp)
  refine ⟨by decide, by decide, by decide, ?_⟩
  rw [compute_color_zip _ hnd]
  simp only [List.length_cons]
  rw [List.range_succ_eq_map, List.range_succ_eq_map,
    List.range_succ_eq_map, List.range_succ_eq_map]
  simp only [List.map_cons, List.map_map, List.zip_cons_cons]
  rw [dictGet_cons_self, dictGet_cons_ne _ _ had,
    dictGet_cons_ne _ _ hbd, dictGet_cons_ne _ _ hcd, dictGet_cons_self]
  simp only [Option.some.injEq]
  decide

/-- Claim C9 witness: in the list `[10, 20, 30, 40]` identifiers `10`
(position 0) and `40` (position 3) receive the same color. -/
theorem positions_zero_three_same_color_witness :
    dictGet (_compute_color_for_all_labels [10, 20, 30, 40]) 10 =
      dictGet (_compute_color_for_all_labels [10, 20, 30, 40]) 40 :=
  (positions_zero_three_same_color 10 20 30 40 [] (by decide)).2.2.2

/-- Claim C10: every channel of every color in the map is at most 254
(each channel is a remainder mod 255, so the value 255 never occurs). -/
theorem color_channels_lt_255 (ids : List Int)
    (p : Int × (Nat × Nat × Nat))
    (hp : p ∈ _compute_color_for_all_labels ids) :
    p.2.1 ≤ 254 ∧ p.2.2.1 ≤ 254 ∧ p.2.2.2 ≤ 254 := by
  simp only [_compute_color_for_all_labels, dictOfZip] at hp
  rcases mem_foldl_dictInsert _ _ p hp with hp' | hp'
  · exact absurd hp' (List.not_mem_nil p)
  · have hsnd := List.of_mem_zip hp'
    rcases List.mem_map.mp hsnd.2 with ⟨i, _, hi⟩
    have h255 : ∀ x : Nat, x % 255 ≤ 254 :=
      fun x => Nat.lt_succ_iff.mp (Nat.mod_lt x (by decide))
    rw [← hi]
    exact ⟨h255 _, h255 _, h255 _⟩

/-- Claim C10 witness: the single entry of the color map for `[7]` is
`(7, (14, 254, 30))`, and each channel is at most 254. -/
theorem color_channels_lt_255_witness :
    (14 : Nat) ≤ 254 ∧ (254 : Nat) ≤ 254 ∧ (30 : Nat) ≤ 254 :=
  color_channels_lt_255 [7] (7, (14, 254, 30)) (by decide)

lemma dictInsert_cons_ne {κ α : Type} [BEq κ] [LawfulBEq κ]
    {a k : κ} (h : (a == k) = false) (b : α) (d : List (κ × α)) (v : α) :
    dictInsert ((a, b) :: d) k v = (a, b) :: dictInsert d k v := by
  by_cases hd : d.any (fun p => p.1 == k) = true
  · rw [dictInsert, if_pos (by simp [List.any_cons, h, hd]),
      dictInsert, if_pos hd, List.map_cons]
    congr 1
    simp [h]
  · rw [dictInsert, if_neg (by simp [List.any_cons, h, hd]),
      dictInsert, if_neg hd, List.cons_append]

lemma dictGet_dictInsert_self {κ α : Type} [BEq κ] [LawfulBEq κ]
    (d : List (κ × α)) (k : κ) (v : α) :
    dictGet (dictInsert d k v) k = some v := by
  induction d with
  | nil => simp [dictInsert, dictGet]
  | cons p d ih =>
    obtain ⟨a, b⟩ := p
    by_cases hak : (a == k) = true
    · have h1 : dictInsert ((a, b) :: d) k v =
          (k, v) :: d.map (fun q => if q.1 == k then (k, v) else q) := by
        rw [dictInsert, if_pos (by simp [List.any_cons, hak]),
          List.map_cons]
        congr 1
        simp [hak]
      rw [h1, dictGet_cons_self]
    · rw [dictInsert_cons_ne (by simpa using hak) b d v,
        dictGet_cons_ne _ _ (by simpa using hak)]
      exact ih

lemma find?_map_overwrite {κ α : Type} [BEq κ] [LawfulBEq κ]
    (k k' : κ) (v : α) (h : (k' == k) = false) :
    ∀ d : List (κ × α),
      List.find? (fun p => p.1 == k)
        (d.map fun p => if p.1 == k' then (k', v) else p) =
      List.find? (fun p => p.1 == k) d
  | [] => rfl
  | (a, b) :: d => by
    by_cases hak' : (a == k') = true
    · have ha : (a == k) = false := by
        rw [beq_iff_eq.mp hak']
        exact h
      simp only [List.map_cons]
      rw [if_pos hak']
      rw [List.find?_cons_of_neg _ (by simp [h]),
        List.find?_cons_of_neg _ (by simp [ha])]
      exact find?_map_overwrite k k' v h d
    · have hfk : (if ((a, b).1 == k') = true then (k', v) else (a, b)) =
          (a, b) := by
        rw [if_neg]
        simpa using hak'
      simp only [List.map_cons]
      rw [hfk]
      by_cases hak : (a == k) = true
      · rw [List.find?_cons_of_pos _ (by simpa using hak),
          List.find?_cons_of_pos _ (by simpa using hak)]
      · rw [List.find?_cons_of_neg _ (by simpa using hak),
          List.find?_cons_of_neg _ (by simpa using hak)]
        exact find?_map_overwrite k k' v h d

lemma dictGet_dictInsert_ne {κ α : Type} [BEq κ] [LawfulBEq κ]
    (d : List (κ × α)) {k k' : κ} (v : α) (h : (k' == k) = false) :
    dictGet (dictInsert d k' v) k = dictGet d k := by
  rw [dictInsert]
  split
  · rw [dictGet, find?_map_overwrite k k' v h d, dictGet]
  · rw [dictGet, List.find?_append, dictGet]
    have hone : List.find? (fun p => p.1 == k) [(k', v)] = none := by
      simp [h]
    rw [hone]
    cases List.find? (fun p => p.1 == k) d <;> rfl

lemma dictGet_foldl_insert {κ α : Type} [BEq κ] [LawfulBEq κ] (k : κ)
    (ps : List (κ × α)) :
    ∀ d : List (κ × α),
      dictGet (ps.foldl (fun d q => dictInsert d q.1 q.2) d) k =
        match (ps.filter (fun q => q.1 == k)).getLast? with
        | some q => some q.2
        | none => dictGet d k := by
  induction ps using List.reverseRecOn with
  | nil => intro d; rfl
  | append_singleton ps q ih =>
    intro d
    obtain ⟨a, b⟩ := q
    rw [List.foldl_append]
    simp only [List.foldl_cons, List.foldl_nil]
    rw [List.filter_append]
    by_cases hak : (a == k) = true
    · have hfil : List.filter (fun q => q.1 == k) [(a, b)] = [(a, b)] := by
        simp [hak]
      rw [hfil, List.getLast?_concat, beq_iff_eq.mp hak,
        dictGet_dictInsert_self]
    · have hfil : List.filter (fun q => q.1 == k) [(a, b)] = [] := by
        simp [hak]
      rw [hfil, List.append_nil,
        dictGet_dictInsert_ne _ b (by simpa using hak)]
      exact ih d

lemma dictGet_dictOfZip_last (l : List TrackingBbox) (tid : Int) :
    dictGet (dictOfZip (l.map TrackingBbox.track_id) l) tid =
      (l.filter (fun b => b.track_id == tid)).getLast? := by
  rw [dictOfZip, zip_map_track_id,
    dictGet_foldl_insert tid (l.map fun b => (b.track_id, b)) [],
    List.filter_map, List.getLast?_map]
  have hcomp : ((fun q : Int × TrackingBbox => q.1 == tid) ∘
      fun b : TrackingBbox => (b.track_id, b)) =
      fun b => b.track_id == tid := rfl
  rw [hcomp]
  cases (l.filter (fun b => b.track_id == tid)).getLast? with
  | none => rfl
  | some b => rfl

lemma keys_dictInsert_nodup {κ α : Type} [BEq κ] [LawfulBEq κ]
    (d : List (κ × α)) (k : κ) (v : α)
    (h : (d.map Prod.fst).Nodup) :
    ((dictInsert d k v).map Prod.fst).Nodup := by
  rw [dictInsert]
  split
  · have hkeys : (d.map (fun p => if p.1 == k then (k, v) else p)).map
        Prod.fst = d.map Prod.fst := by
      rw [List.map_map]
      refine List.map_eq_map_iff.mpr ?_
      intro p _
      by_cases hpk : (p.1 == k) = true
      · have hpe : p.1 = k := beq_iff_eq.mp hpk
        simp [Function.comp, hpk, hpe]
      · simp [Function.comp, hpk]
    rw [hkeys]
    exact h
  · rename_i hany
    rw [List.map_append]
    simp only [List.map_cons, List.map_nil]
    have hk : k ∉ d.map Prod.fst := by
      intro hmem
      rcases List.mem_map.mp hmem with ⟨p, hp, hpk⟩
      exact hany (List.any_eq_true.mpr ⟨p, hp, by simp [hpk]⟩)
    refine List.Nodup.append h (List.nodup_singleton k) ?_
    intro x hx hx'
    simp only [List.mem_singleton] at hx'
    subst hx'
    exact hk hx

lemma keys_dictOfZip_nodup {κ α : Type} [BEq κ] [LawfulBEq κ]
    (ps : List (κ × α)) :
    ∀ d : List (κ × α), (d.map Prod.fst).Nodup →
      (((ps.foldl (fun d q => dictInsert d q.1 q.2) d).map
        Prod.fst).Nodup) := by
  induction ps with
  | nil => intro d h; exact h
  | cons q ps ih =>
    intro d h
    rw [List.foldl_cons]
    exact ih _ (keys_dictInsert_nodup d q.1 q.2 h)

example :
    dictGet (dictOfZip (([⟨0, 7, 1, 1, 2, 2⟩, ⟨0, 5, 0, 0, 1, 1⟩,
        ⟨0, 7, 3, 3, 4, 4⟩] : List TrackingBbox).map
      TrackingBbox.track_id)
      ([⟨0, 7, 1, 1, 2, 2⟩, ⟨0, 5, 0, 0, 1, 1⟩,
        ⟨0, 7, 3, 3, 4, 4⟩] : List TrackingBbox)) 7 =
    some ⟨0, 7, 3, 3, 4, 4⟩ := rfl

example :
    dictGet (dictOfZip (([⟨0, 7, 1, 1, 2, 2⟩, ⟨0, 7, 3, 3, 4, 4⟩,
        ⟨0, 5, 0, 0, 1, 1⟩] : List TrackingBbox).map
      TrackingBbox.track_id)
      ([⟨0, 7, 1, 1, 2, 2⟩, ⟨0, 7, 3, 3, 4, 4⟩,
        ⟨0, 5, 0, 0, 1, 1⟩] : List TrackingBbox)) 7 =
    some ⟨0, 7, 3, 3, 4, 4⟩ := rfl

/-- Claim C6: for every box sequence, `_draw_boxes` draws exactly the
entries of the deduplicating dict `dict(zip(cur_ids, cur_tracks))`
(plot.py line 90); in that dict every track identifier occurs as a key
at most once, and every identifier `tid` is mapped to the LAST box in
sequence order whose `track_id` is `tid`. So whenever two or more boxes
in the frame share one track identifier — adjacent or not, final or
not — the single box drawn for that identifier (whose coordinates are
rounded and rendered) is the final box with that `track_id`:
last-write-wins. -/
theorem draw_boxes_last_write_wins (tsize : String → Int) (im : Image)
    (color_map : List (Int × (Nat × Nat × Nat)))
    (cur_tracks : List TrackingBbox) (tid : Int) :
    _draw_boxes tsize im cur_tracks color_map =
      drawLoop tsize color_map
        (dictOfZip (cur_tracks.map TrackingBbox.track_id) cur_tracks)
        im ∧
    ((dictOfZip (cur_tracks.map TrackingBbox.track_id)
        cur_tracks).map Prod.fst).Nodup ∧
    dictGet (dictOfZip (cur_tracks.map TrackingBbox.track_id) cur_tracks)
        tid =
      (cur_tracks.filter (fun b => b.track_id == tid)).getLast? := by
  refine ⟨rfl, ?_, dictGet_dictOfZip_last cur_tracks tid⟩
  rw [dictOfZip]
  exact keys_dictOfZip_nodup _ [] (by simp)

/-- Claim C1 counterexample: a one-frame video with an empty results
mapping. `results[0]` raises `KeyError`: the run aborts with an error
instead of treating the missing frame index as an empty box list, so it
does not complete successfully. -/
theorem missing_frame_not_ok_cex :
    (_write_video (fun _ => 0) [] (some ⟨[⟨0, []⟩], 1, 1, 1⟩)).2 =
      Except.error (PipeError.keyErrorFrame 0) ∧
    (_write_video (fun _ => 0) [] (some ⟨[⟨0, []⟩], 1, 1, 1⟩)).2 ≠
      Except.ok () :=
  ⟨rfl, fun h => Except.noConfusion h⟩

/-- Claim C1 (amended): a frame index reached by the pipeline loop that
is absent from the results mapping IS an error: `results[frame_idx]`
raises `KeyError` and the run aborts at that frame; it is not treated as
an empty box list. -/
theorem missing_frame_key_error (tsize : String → Int)
    (results : List (Nat × List TrackingBbox)) (video : VideoCapture)
    (m : Nat) (hm : m < video.frames.length)
    (hbefore : ∀ j, j < m → (dictGet results j).isSome = true)
    (hmiss : dictGet results m = none) :
    (_write_video tsize results (some video)).2 =
      Except.error (PipeError.keyErrorFrame m) := by
  have hc := unique_ids_covers results
  have h := writeLoop_err tsize results _ hc m video.frames 0 [] hm
    (fun j hj => by rw [Nat.zero_add]; exact hbefore j hj)
    (by rw [Nat.zero_add]; exact hmiss)
  rw [Nat.zero_add] at h
  simp only [_write_video, captureOf]
  exact h

/-- Claim C1 witness: a two-frame video whose results mapping only has
frame 1; the run aborts with a `KeyError` at frame 0. -/
theorem missing_frame_key_error_witness :
    (_write_video (fun _ => 0) [(1, [])]
        (some ⟨[⟨0, []⟩, ⟨1, []⟩], 4, 4, 10⟩)).2 =
      Except.error (PipeError.keyErrorFrame 0) :=
  missing_frame_key_error (fun _ => 0) [(1, [])]
    ⟨[⟨0, []⟩, ⟨1, []⟩], 4, 4, 10⟩ 0 (by decide) (by decide) (by decide)

/-- Claim C2 counterexample: on an unreadable input (failed capture) the
run does not fail: the unchecked `video.open` leaves a capture that
yields zero frames and zero metadata, the output writer is still
created, and the run completes reporting success; no `OpenError` is
raised anywhere. -/
theorem unreadable_input_no_error_cex :
    _write_video (fun _ => 0) [(0, [])] none =
      (⟨0, 0, 0, []⟩, Except.ok ()) := rfl

/-- Claim C2 (amended): on an unreadable input path `_write_video`
completes without any error: the failed capture yields zero frames, the
output writer is created with width 0, height 0 and frame rate 0, and
zero frames are written. The code never checks `video.open` and has no
`OpenError` path. -/
theorem unreadable_input_completes (tsize : String → Int)
    (results : List (Nat × List TrackingBbox)) :
    _write_video tsize results none = (⟨0, 0, 0, []⟩, Except.ok ()) := rfl

/-- Claim C5: when every frame index reached by the loop is present in
the results mapping, `_write_video` on an N-frame source completes
successfully and writes exactly N frames, in source order (the i-th
output frame is the i-th source frame, possibly with draws appended), to
a writer created with the source's width, height and frame rate. -/
theorem write_video_frame_count (tsize : String → Int)
    (results : List (Nat × List TrackingBbox)) (video : VideoCapture)
    (hk : ∀ j, j < video.frames.length →
      (dictGet results j).isSome = true) :
    ∃ out, _write_video tsize results (some video) =
        (⟨video.width, video.height, video.fps, out⟩, Except.ok ()) ∧
      out.length = video.frames.length ∧
      ∀ i (ho : i < out.length) (hi : i < video.frames.length),
        (out.get ⟨i, ho⟩).data = (video.frames.get ⟨i, hi⟩).data := by
  rcases write_video_ok tsize results video hk with ⟨out, h1, h2, h3, -⟩
  exact ⟨out, h1, h2, h3⟩

/-- Claim C5 witness: a one-frame source with a complete results mapping
completes successfully. -/
theorem write_video_frame_count_witness :
    (_write_video (fun _ => 0) [(0, [])]
        (some ⟨[⟨5, []⟩], 3, 2, 30⟩)).2 = Except.ok () := by
  rcases write_video_frame_count (fun _ => 0) [(0, [])]
      ⟨[⟨5, []⟩], 3, 2, 30⟩ (by decide) with ⟨out, heq, -, -⟩
  rw [heq]

/-- Claim C8: `_draw_boxes` applied to an empty box list returns the
frame unchanged (byte-for-byte: the very same `Image`), and the pipeline
writes a frame whose box list is empty to the sink unmodified. -/
theorem empty_boxes_passthrough (tsize : String → Int) (im : Image)
    (color_map : List (Int × (Nat × Nat × Nat)))
    (results : List (Nat × List TrackingBbox)) (video : VideoCapture)
    (i : Nat)
    (hk : ∀ j, j < video.frames.length →
      (dictGet results j).isSome = true)
    (hi : i < video.frames.length)
    (hempty : dictGet results i = some []) :
    _draw_boxes tsize im [] color_map = some im ∧
    ∃ out, (_write_video tsize results (some video)).1.frames = out ∧
      out.length = video.frames.length ∧
      ∀ ho : i < out.length,
        out.get ⟨i, ho⟩ = video.frames.get ⟨i, hi⟩ := by
  refine ⟨rfl, ?_⟩
  rcases write_video_ok tsize results video hk with ⟨out, h1, h2, -, h4⟩
  refine ⟨out, by rw [h1], h2, ?_⟩
  intro ho
  exact h4 i ho hi hempty

/-- Claim C8 witness: drawing an empty box list on a concrete frame
returns it unchanged. -/
theorem empty_boxes_passthrough_witness :
    _draw_boxes (fun _ => 0) ⟨9, []⟩ [] [] = some ⟨9, []⟩ :=
  (empty_boxes_passthrough (fun _ => 0) ⟨9, []⟩ [] [(0, [])]
    ⟨[⟨1, []⟩], 2, 2, 24⟩ 0 (by decide) (by decide) (by decide)).1
